import Mathlib

/-!
# Verification of the RTFM ceiling analysis and lock primitive

A shallow embedding of the parts of the `cortex-m-rtfm` code base that the
verified properties speak about:

* the ceiling / ownership analysis and the free-queue / ready-queue ceiling
  analysis of `macros/src/analyze.rs` (`fn app`);
* the ARMv7-M critical-section primitive `Mutex::lock` of `src/lib.rs`,
  together with `logical2hw`.

Identifiers (resource names, task names, type names, interrupt names) are
modelled as natural numbers; `u8` quantities are modelled as `Nat`, with an
explicit `% 256` where the Rust `u8` arithmetic can wrap.  Hash maps are
modelled as total functions (`Nat → Option _` for maps built by insertion,
`Nat → Nat` for maps pre-populated with `0`), and hash sets as `Nat → Bool`.
-/

namespace RTFM

/-- `enum Ownership` of `macros/src/analyze.rs`: either owned by a single
priority or shared with a ceiling.  Priorities and ceilings are logical
(0 = lowest, 255 = highest). -/
inductive Ownership where
  | Owned (priority : Nat)
  | Shared (ceiling : Nat)
deriving DecidableEq, Repr

/-- `Ownership::needs_lock` of `macros/src/analyze.rs`: a shared resource
needs a lock exactly when the accessing priority is below the ceiling. -/
def Ownership.needs_lock : Ownership → Nat → Bool
  | .Owned _, _ => false
  | .Shared ceiling, priority => priority < ceiling

/-- The attributes of a declared resource that the analysis consults:
whether it was declared `mut` (`mutability.is_some()` in the Rust model) and
the identifier of its value type. -/
structure Res where
  mutability : Bool
  ty : Nat
deriving DecidableEq, Repr

/-- Modelled from the spec: the parsed application model (`syntax::App`);
`macros/src/syntax.rs` is declared by `mod syntax;` but its source is not
available, so the fields are taken from the spec's data model (§3, §4.1).

* `resources` maps a resource name to its declared attributes (the
  syntactic check guarantees every accessed resource is declared, so the
  map is total);
* `taskPriority` maps a task name to its declared priority
  (`app.tasks[task].args.priority`);
* `resourceAccesses` is the enumeration `app.resource_accesses()`: every
  access as a `(priority, resource)` pair, from `init` at priority 255,
  `idle` at priority 0, interrupt and exception handlers at their declared
  priorities, and tasks at their declared priorities;
* `spawnCalls` is `app.spawn_calls()`: every `spawn` call-site as a
  `(caller priority, target task)` pair, where the priority is `none`
  for call-sites in `init` and `some p` elsewhere; `scheduleCalls` is
  `app.schedule_calls()`, likewise. -/
structure App where
  resources : Nat → Res
  taskPriority : Nat → Nat
  resourceAccesses : List (Nat × Nat)
  spawnCalls : List (Option Nat × Nat)
  scheduleCalls : List (Option Nat × Nat)

/-- The `spawn` list of `init` (`app.init.args.spawn`): the targets of the
call-sites that `app.spawn_calls()` reports with priority `none`. -/
def App.initSpawn (a : App) : List Nat :=
  a.spawnCalls.filterMap fun c => match c.1 with
    | none => some c.2
    | some _ => none

/-- The `schedule` list of `init` (`app.init.args.schedule`). -/
def App.initSchedule (a : App) : List Nat :=
  a.scheduleCalls.filterMap fun c => match c.1 with
    | none => some c.2
    | some _ => none

/-- State of the first loop of `fn app` (`macros/src/analyze.rs`): the
`ownerships` map and the `needs_sync` set of value types of read-only
resources shared across priorities. -/
structure CeilState where
  ownerships : Nat → Option Ownership
  needs_sync : Nat → Bool

/-- One iteration of the first loop of `fn app` over an access
`(priority, res)`: on first sight record `Owned { priority }`; on a later
sight from a different priority promote to `Shared` with the maximum of the
old ceiling and the new priority, and if the resource is read-only insert
its value type into `needs_sync`. -/
def ceilStep (resources : Nat → Res) (st : CeilState) (a : Nat × Nat) : CeilState :=
  match st.ownerships a.2 with
  | some ow =>
      let ceiling := match ow with
        | .Owned p => p
        | .Shared c => c
      if a.1 ≠ ceiling then
        { ownerships := fun r =>
            if r = a.2 then some (.Shared (max ceiling a.1)) else st.ownerships r,
          needs_sync :=
            if (resources a.2).mutability then st.needs_sync
            else fun t => if t = (resources a.2).ty then true else st.needs_sync t }
      else st
  | none =>
      { st with ownerships := fun r =>
          if r = a.2 then some (.Owned a.1) else st.ownerships r }

/-- The first loop of `fn app`: fold `ceilStep` over all resource accesses,
starting from the empty map and the empty set. -/
def ceilAnalysis (a : App) : CeilState :=
  a.resourceAccesses.foldl (ceilStep a.resources) ⟨fun _ => none, fun _ => false⟩

/-- State of the queue-ceiling loops of `fn app`: the free-queue ceilings
(per task), the ready-queue ceilings (per priority level) and the
`needs_send` set of tasks. -/
structure QueueState where
  free_queues : Nat → Nat
  ready_queues : Nat → Nat
  needs_send : Nat → Bool

/-- One iteration of the `spawn_calls` loop of `fn app`: a call-site with
priority `some p` targeting task `t` raises `t`'s free-queue ceiling and the
ready-queue ceiling at `t`'s priority level to at least `p`, and inserts `t`
into `needs_send` when `p` differs from `t`'s priority; call-sites from
`init` (priority `none`) are excluded. -/
def spawnStep (taskPriority : Nat → Nat) (st : QueueState) (c : Option Nat × Nat) :
    QueueState :=
  match c.1 with
  | some priority =>
      { free_queues := fun t =>
          if t = c.2 then max (st.free_queues t) priority else st.free_queues t,
        ready_queues := fun l =>
          if l = taskPriority c.2 then max (st.ready_queues l) priority
          else st.ready_queues l,
        needs_send :=
          if taskPriority c.2 ≠ priority then
            fun t => if t = c.2 then true else st.needs_send t
          else st.needs_send }
  | none => st

/-- One iteration of the `schedule_calls` loop of `fn app` (second pass of
the free-queue ceiling analysis): a call-site with priority `some p`
targeting task `t` raises `t`'s free-queue ceiling to at least `p`;
call-sites from `init` are excluded.  (The same loop also raises the
timer-queue ceiling, which no verified property consults.) -/
def scheduleStep (st : QueueState) (c : Option Nat × Nat) : QueueState :=
  match c.1 with
  | some priority =>
      { st with free_queues := fun t =>
          if t = c.2 then max (st.free_queues t) priority else st.free_queues t }
  | none => st

/-- The fields of `struct Analysis` (`macros/src/analyze.rs`) that the
verified properties consult. -/
structure Analysis where
  ownerships : Nat → Option Ownership
  needs_sync : Nat → Bool
  free_queues : Nat → Nat
  ready_queues : Nat → Nat
  needs_send : Nat → Bool

/-- `fn app` of `macros/src/analyze.rs`, restricted to the passes the
verified properties consult: the ceiling / `Sync` analysis of resources,
the seeding of `needs_send` with every task spawned or scheduled from
`init`, the `spawn_calls` pass over free-queue and ready-queue ceilings,
and the `schedule_calls` pass over free-queue ceilings.  Free-queue and
ready-queue ceilings start at 0 for every key. -/
def app (a : App) : Analysis :=
  let ceil := ceilAnalysis a
  let send0 : Nat → Bool := fun t => (a.initSpawn ++ a.initSchedule).contains t
  let st0 : QueueState := ⟨fun _ => 0, fun _ => 0, send0⟩
  let st1 := a.spawnCalls.foldl (spawnStep a.taskPriority) st0
  let st2 := a.scheduleCalls.foldl scheduleStep st1
  { ownerships := ceil.ownerships
    needs_sync := ceil.needs_sync
    free_queues := st2.free_queues
    ready_queues := st2.ready_queues
    needs_send := st2.needs_send }

/-! ## The ARMv7-M critical-section primitive (`src/lib.rs`) -/

/-- The execution-priority state that `Mutex::lock` reads and writes: the
context-local logical-priority cell (`self.priority()`), the BASEPRI
register, and the PRIMASK register (`true` = all maskable interrupts
disabled). -/
structure LockState where
  priority : Nat
  basepri : Nat
  primask : Bool
deriving DecidableEq, Repr

/-- `fn logical2hw` of `src/lib.rs`: `((1 << bits) - logical) << (8 - bits)`
in `u8` arithmetic; the `% 256` models the silent truncation of the `u8`
left shift (for `logical = 0` the Rust value `(1 << bits) << (8 - bits)`
truncates to `0`). -/
def logical2hw (logical bits : Nat) : Nat :=
  ((1 <<< bits - logical) <<< (8 - bits)) % 256

/-- `Mutex::lock` for `armv7m` (`src/lib.rs`), as a transformer of the
priority state: the first component is the state in which the closure `f`
runs (all `f` can observe of the priority state), the second the state
after `lock` returns.  If the current priority is below `CEILING`, either
(`CEILING == 1 << NVIC_PRIO_BITS`) the cell is set to `u8::MAX` and `f`
runs inside `interrupt::free` — PRIMASK set, then restored — or the cell is
set to `CEILING` and BASEPRI written with its hardware encoding, and on
exit BASEPRI is written with the encoding of the saved priority; in both
cases the cell is restored to the saved value.  Otherwise `f` is invoked
directly. -/
def lock (ceiling bits : Nat) (s : LockState) : LockState × LockState :=
  if s.priority < ceiling then
    if ceiling = 1 <<< bits then
      (⟨255, s.basepri, true⟩, ⟨s.priority, s.basepri, s.primask⟩)
    else
      (⟨ceiling, logical2hw ceiling bits, s.primask⟩,
       ⟨s.priority, logical2hw s.priority bits, s.primask⟩)
  else
    (s, s)

/-! ## Derived views of the model used to state the properties -/

/-- The maximum of a list of naturals, `0` for the empty list. -/
def listMax (l : List Nat) : Nat :=
  l.foldl max 0

/-- The priorities of the accesses to resource `r`, in enumeration order. -/
def accessPrios (r : Nat) : List (Nat × Nat) → List Nat
  | [] => []
  | a :: rest =>
      if a.2 = r then a.1 :: accessPrios r rest else accessPrios r rest

/-- The priorities of the non-`init` call-sites targeting task `t`, in
enumeration order (`init` call-sites carry priority `none` and are
dropped). -/
def callPrios (t : Nat) : List (Option Nat × Nat) → List Nat
  | [] => []
  | c :: rest =>
      match c.1 with
      | some p => if c.2 = t then p :: callPrios t rest else callPrios t rest
      | none => callPrios t rest

/-- The priorities of the non-`init` call-sites whose target task has
declared priority `q`, in enumeration order. -/
def callPriosAtLevel (taskPriority : Nat → Nat) (q : Nat) :
    List (Option Nat × Nat) → List Nat
  | [] => []
  | c :: rest =>
      match c.1 with
      | some p =>
          if taskPriority c.2 = q then p :: callPriosAtLevel taskPriority q rest
          else callPriosAtLevel taskPriority q rest
      | none => callPriosAtLevel taskPriority q rest

/-- The postcondition that property C2 claims for `Mutex::lock`, stated in
the spec's words (for comparison with the behaviour of `lock`): on the fast
path nothing changes; otherwise the cell is raised (to `u8::MAX` with
interrupts globally disabled in the maximal-ceiling case, to `CEILING`
otherwise), and after `lock` returns the cell equals its pre-call value and
BASEPRI equals the encoding of the pre-call priority. -/
def lockClaimedPost (ceiling bits : Nat) (s : LockState) : Prop :=
  (ceiling ≤ s.priority → lock ceiling bits s = (s, s)) ∧
  (s.priority < ceiling →
    ((lock ceiling bits s).1.priority =
        if ceiling = 1 <<< bits then 255 else ceiling) ∧
    (ceiling = 1 <<< bits → (lock ceiling bits s).1.primask = true) ∧
    (lock ceiling bits s).2.priority = s.priority ∧
    (lock ceiling bits s).2.basepri = logical2hw s.priority bits)

/-! ## Concrete applications used to instantiate the properties -/

/-- A concrete application: resource 0 is mutable, resource 1 is read-only
of value type 7; resource 0 is accessed twice from priority 2, resource 1
from priorities 1 and 3. -/
def exApp1 : App where
  resources := fun r => if r = 1 then ⟨false, 7⟩ else ⟨true, 5⟩
  taskPriority := fun _ => 1
  resourceAccesses := [(2, 0), (2, 0), (1, 1), (3, 1)]
  spawnCalls := []
  scheduleCalls := []

/-- A concrete application: task 0 has priority 1 and task 1 priority 3;
`init` spawns task 0, a priority-2 context spawns task 0, a priority-3
context spawns task 1, and a priority-5 context schedules task 0. -/
def exApp3 : App where
  resources := fun _ => ⟨true, 0⟩
  taskPriority := fun t => if t = 1 then 3 else 1
  resourceAccesses := []
  spawnCalls := [(none, 0), (some 2, 0), (some 3, 1)]
  scheduleCalls := [(some 5, 0)]

/-! ## C2: the `Mutex::lock` frame effect -/

/-- C2, counterexample: the claimed postcondition "after `lock` returns …
BASEPRI is restored to the encoding of the pre-call priority" fails in the
maximal-ceiling branch, which never writes BASEPRI.  At `CEILING = 16 =
1 << 4`, pre-call priority 3 and pre-call BASEPRI 0, `lock` leaves BASEPRI
at 0 while the encoding of priority 3 is `(16 - 3) << 4 = 208`. -/
theorem C2_lock_claimed_post_fails : ¬ lockClaimedPost 16 4 ⟨3, 0, false⟩ := by
  intro h
  have hb := (h.2 (by decide)).2.2.2
  revert hb
  decide

/-- C2 (amended): on `armv7m`, if the current logical priority (the
context-local cell) is at least `CEILING`, `lock` invokes `f` directly with
no change to the cell, BASEPRI or PRIMASK.  Otherwise, when `CEILING` equals
`1 << NVIC_PRIO_BITS`, the cell is raised to `u8::MAX` and `f` runs with all
interrupts globally disabled, and after `lock` returns the whole priority
state — cell, BASEPRI and PRIMASK — equals its pre-call value (BASEPRI is
never written in this branch); when `CEILING` is below `1 << NVIC_PRIO_BITS`,
the cell is raised to `CEILING` and BASEPRI to its encoding, and after
`lock` returns the cell equals its pre-call value and BASEPRI holds the
encoding of the pre-call priority. -/
theorem C2_lock_frame (ceiling bits : Nat) (s : LockState) :
    (ceiling ≤ s.priority → lock ceiling bits s = (s, s)) ∧
    (s.priority < ceiling → ceiling = 1 <<< bits →
        lock ceiling bits s = (⟨255, s.basepri, true⟩, s)) ∧
    (s.priority < ceiling → ceiling ≠ 1 <<< bits →
        lock ceiling bits s =
          (⟨ceiling, logical2hw ceiling bits, s.primask⟩,
           ⟨s.priority, logical2hw s.priority bits, s.primask⟩)) := by
  refine ⟨fun h => ?_, fun h hc => ?_, fun h hc => ?_⟩
  · simp [lock, Nat.not_lt.mpr h]
  · subst hc
    simp [lock, h]
  · simp [lock, h, hc]

/-- Witness for C2: the three branches of `C2_lock_frame` at concrete
states, with `NVIC_PRIO_BITS = 4`. -/
theorem C2_lock_frame_witness :
    lock 2 4 ⟨3, 0, false⟩ = (⟨3, 0, false⟩, ⟨3, 0, false⟩) ∧
    lock 16 4 ⟨3, 0, false⟩ = (⟨255, 0, true⟩, ⟨3, 0, false⟩) ∧
    lock 4 4 ⟨1, 0, false⟩ = (⟨4, 192, false⟩, ⟨1, 240, false⟩) :=
  ⟨(C2_lock_frame 2 4 ⟨3, 0, false⟩).1 (by decide),
   (C2_lock_frame 16 4 ⟨3, 0, false⟩).2.1 (by decide) (by decide),
   ((C2_lock_frame 4 4 ⟨1, 0, false⟩).2.2 (by decide) (by decide)).trans
     (by decide)⟩

/-! ## C1: the ceiling / ownership analysis -/

theorem accessPrios_append (r : Nat) (l : List (Nat × Nat)) (a : Nat × Nat) :
    accessPrios r (l ++ [a]) =
      accessPrios r l ++ if a.2 = r then [a.1] else [] := by
  induction l with
  | nil => by_cases h : a.2 = r <;> simp [accessPrios, h]
  | cons x xs ih => by_cases h : x.2 = r <;> simp [accessPrios, h, ih]

theorem foldl_max_of_le (l : List Nat) :
    ∀ acc, (∀ q ∈ l, q ≤ acc) → l.foldl max acc = acc := by
  induction l with
  | nil => intro acc _; rfl
  | cons x xs ih =>
      intro acc h
      rw [List.foldl_cons, Nat.max_eq_left (h x (by simp))]
      exact ih acc fun q hq => h q (by simp [hq])

theorem listMax_all_eq (p : Nat) (ps : List Nat) (h : ∀ q ∈ ps, q = p) :
    listMax (p :: ps) = p := by
  unfold listMax
  rw [List.foldl_cons, Nat.max_eq_right (Nat.zero_le p)]
  exact foldl_max_of_le ps p fun q hq => (h q hq).le

theorem listMax_append_singleton (l : List Nat) (x : Nat) :
    listMax (l ++ [x]) = max (listMax l) x := by
  unfold listMax
  rw [List.foldl_append]
  rfl

theorem ceilStep_of_none (resources : Nat → Res) (st : CeilState) (a : Nat × Nat)
    (h : st.ownerships a.2 = none) :
    ceilStep resources st a =
      { st with ownerships := fun r =>
          if r = a.2 then some (.Owned a.1) else st.ownerships r } := by
  unfold ceilStep
  rw [h]

theorem ceilStep_of_owned_eq (resources : Nat → Res) (st : CeilState)
    (a : Nat × Nat) (h : st.ownerships a.2 = some (.Owned a.1)) :
    ceilStep resources st a = st := by
  unfold ceilStep
  rw [h]
  simp

theorem ceilStep_of_owned_ne (resources : Nat → Res) (st : CeilState)
    (a : Nat × Nat) (p : Nat) (h : st.ownerships a.2 = some (.Owned p))
    (hne : a.1 ≠ p) :
    ceilStep resources st a =
      { ownerships := fun r =>
          if r = a.2 then some (.Shared (max p a.1)) else st.ownerships r,
        needs_sync :=
          if (resources a.2).mutability then st.needs_sync
          else fun t => if t = (resources a.2).ty then true else st.needs_sync t } := by
  unfold ceilStep
  rw [h]
  simp [hne]

theorem ceilStep_of_shared_eq (resources : Nat → Res) (st : CeilState)
    (a : Nat × Nat) (h : st.ownerships a.2 = some (.Shared a.1)) :
    ceilStep resources st a = st := by
  unfold ceilStep
  rw [h]
  simp

theorem ceilStep_of_shared_ne (resources : Nat → Res) (st : CeilState)
    (a : Nat × Nat) (c : Nat) (h : st.ownerships a.2 = some (.Shared c))
    (hne : a.1 ≠ c) :
    ceilStep resources st a =
      { ownerships := fun r =>
          if r = a.2 then some (.Shared (max c a.1)) else st.ownerships r,
        needs_sync :=
          if (resources a.2).mutability then st.needs_sync
          else fun t => if t = (resources a.2).ty then true else st.needs_sync t } := by
  unfold ceilStep
  rw [h]
  simp [hne]

theorem promoted_sync_mono (resources : Nat → Res) (st : CeilState)
    (a : Nat × Nat) (t : Nat) (h : st.needs_sync t = true) :
    (if (resources a.2).mutability then st.needs_sync
     else fun t' => if t' = (resources a.2).ty then true else st.needs_sync t') t
      = true := by
  split
  · exact h
  · by_cases ht : t = (resources a.2).ty <;> simp [ht, h]

theorem ceilStep_ownerships_other (resources : Nat → Res) (st : CeilState)
    (a : Nat × Nat) (r : Nat) (h : r ≠ a.2) :
    (ceilStep resources st a).ownerships r = st.ownerships r := by
  cases hso : st.ownerships a.2 with
  | none => rw [ceilStep_of_none resources st a hso]; simp [h]
  | some ow =>
      cases ow with
      | Owned p =>
          by_cases hp : a.1 = p
          · subst hp
            rw [ceilStep_of_owned_eq resources st a hso]
          · rw [ceilStep_of_owned_ne resources st a p hso hp]
            simp [h]
      | Shared c =>
          by_cases hp : a.1 = c
          · subst hp
            rw [ceilStep_of_shared_eq resources st a hso]
          · rw [ceilStep_of_shared_ne resources st a c hso hp]
            simp [h]

theorem ceilStep_sync_mono (resources : Nat → Res) (st : CeilState)
    (a : Nat × Nat) (t : Nat) (h : st.needs_sync t = true) :
    (ceilStep resources st a).needs_sync t = true := by
  cases hso : st.ownerships a.2 with
  | none => rw [ceilStep_of_none resources st a hso]; exact h
  | some ow =>
      cases ow with
      | Owned p =>
          by_cases hp : a.1 = p
          · subst hp
            rw [ceilStep_of_owned_eq resources st a hso]
            exact h
          · rw [ceilStep_of_owned_ne resources st a p hso hp]
            exact promoted_sync_mono resources st a t h
      | Shared c =>
          by_cases hp : a.1 = c
          · subst hp
            rw [ceilStep_of_shared_eq resources st a hso]
            exact h
          · rw [ceilStep_of_shared_ne resources st a c hso hp]
            exact promoted_sync_mono resources st a t h

theorem ceil_ownership_inv (resources : Nat → Res) (l : List (Nat × Nat)) (r : Nat) :
    (accessPrios r l = [] →
      (l.foldl (ceilStep resources) ⟨fun _ => none, fun _ => false⟩).ownerships r
        = none) ∧
    (∀ p ps, accessPrios r l = p :: ps → (∀ q ∈ ps, q = p) →
      (l.foldl (ceilStep resources) ⟨fun _ => none, fun _ => false⟩).ownerships r
        = some (.Owned p)) ∧
    (∀ p ps, accessPrios r l = p :: ps → (∃ q ∈ ps, q ≠ p) →
      (l.foldl (ceilStep resources) ⟨fun _ => none, fun _ => false⟩).ownerships r
        = some (.Shared (listMax (p :: ps))) ∧
      ((resources r).mutability = false →
        (l.foldl (ceilStep resources) ⟨fun _ => none, fun _ => false⟩).needs_sync
          (resources r).ty = true)) := by
  induction l using List.reverseRecOn with
  | nil =>
      refine ⟨fun _ => rfl, fun p ps hps _ => ?_, fun p ps hps _ => ?_⟩ <;>
        simp [accessPrios] at hps
  | append_singleton l a ih =>
      have hfold : (l ++ [a]).foldl (ceilStep resources) ⟨fun _ => none, fun _ => false⟩
          = ceilStep resources
              (l.foldl (ceilStep resources) ⟨fun _ => none, fun _ => false⟩) a := by
        rw [List.foldl_append]
        rfl
      rw [hfold]
      set st := l.foldl (ceilStep resources) ⟨fun _ => none, fun _ => false⟩ with hst
      by_cases har : a.2 = r
      · subst har
        have hAP : accessPrios a.2 (l ++ [a]) = accessPrios a.2 l ++ [a.1] := by
          rw [accessPrios_append, if_pos rfl]
        rw [hAP]
        rcases hl : accessPrios a.2 l with _ | ⟨p0, ps0⟩
        · -- first access to the resource: `Owned` is recorded
          have hstep := ceilStep_of_none resources st a (ih.1 hl)
          rw [hstep]
          refine ⟨fun hnil => ?_, fun p ps hps _ => ?_, fun p ps hps hex => ?_⟩
          · simp at hnil
          · injection hps with h1 h2
            subst h1
            simp
          · injection hps with h1 h2
            subst h1; subst h2
            exact absurd hex (by simp)
        · by_cases hall0 : ∀ q ∈ ps0, q = p0
          · -- so far a single accessing priority: ownership is `Owned p0`
            have hOwn := ih.2.1 p0 ps0 hl hall0
            by_cases hap : a.1 = p0
            · -- same priority again: no change
              subst hap
              have hstep := ceilStep_of_owned_eq resources st a hOwn
              rw [hstep]
              refine ⟨fun hnil => ?_, fun p ps hps hall => ?_, fun p ps hps hex => ?_⟩
              · simp at hnil
              · injection hps with h1 h2
                subst h1
                exact hOwn
              · injection hps with h1 h2
                subst h1; subst h2
                obtain ⟨q, hq, hqne⟩ := hex
                rcases List.mem_append.mp hq with hq' | hq'
                · exact absurd (hall0 q hq') hqne
                · exact absurd (List.mem_singleton.mp hq') hqne
            · -- a second distinct priority: promotion to `Shared`
              have hstep := ceilStep_of_owned_ne resources st a p0 hOwn hap
              rw [hstep]
              refine ⟨fun hnil => ?_, fun p ps hps hall => ?_, fun p ps hps hex => ?_⟩
              · simp at hnil
              · injection hps with h1 h2
                subst h1; subst h2
                exact absurd (hall a.1 (by simp)) hap
              · injection hps with h1 h2
                subst h1; subst h2
                simp only [List.append_eq]
                have hlm : listMax (p0 :: (ps0 ++ [a.1]))
                    = max (listMax (p0 :: ps0)) a.1 := by
                  rw [← List.cons_append, listMax_append_singleton]
                rw [hlm, listMax_all_eq p0 ps0 hall0]
                constructor
                · simp
                · intro hm
                  simp [hm]
          · -- already shared: the ceiling keeps tracking the max
            push_neg at hall0
            have hSh := ih.2.2 p0 ps0 hl hall0
            have hlm : listMax (p0 :: (ps0 ++ [a.1]))
                = max (listMax (p0 :: ps0)) a.1 := by
              rw [← List.cons_append, listMax_append_singleton]
            by_cases hap : a.1 = listMax (p0 :: ps0)
            · have hstep := ceilStep_of_shared_eq resources st a (by rw [← hap] at hSh; exact hSh.1)
              rw [hstep]
              refine ⟨fun hnil => ?_, fun p ps hps hall => ?_, fun p ps hps hex => ?_⟩
              · simp at hnil
              · injection hps with h1 h2
                subst h1; subst h2
                obtain ⟨q, hq, hqne⟩ := hall0
                exact absurd (hall q (by simp [hq])) hqne
              · injection hps with h1 h2
                subst h1; subst h2
                simp only [List.append_eq]
                rw [hlm, ← hap, Nat.max_self]
                exact ⟨by rw [hSh.1, hap], hSh.2⟩
            · have hstep := ceilStep_of_shared_ne resources st a (listMax (p0 :: ps0)) hSh.1 hap
              rw [hstep]
              refine ⟨fun hnil => ?_, fun p ps hps hall => ?_, fun p ps hps hex => ?_⟩
              · simp at hnil
              · injection hps with h1 h2
                subst h1; subst h2
                obtain ⟨q, hq, hqne⟩ := hall0
                exact absurd (hall q (by simp [hq])) hqne
              · injection hps with h1 h2
                subst h1; subst h2
                simp only [List.append_eq]
                rw [hlm]
                constructor
                · simp
                · intro hm
                  simp [hm]
      · -- the access touches a different resource: nothing changes for `r`
        have hr : r ≠ a.2 := fun he => har he.symm
        have hAP : accessPrios r (l ++ [a]) = accessPrios r l := by
          rw [accessPrios_append, if_neg har, List.append_nil]
        rw [hAP, ceilStep_ownerships_other resources st a r hr]
        refine ⟨ih.1, ih.2.1, fun p ps hps hex => ?_⟩
        obtain ⟨hown, hsync⟩ := ih.2.2 p ps hps hex
        exact ⟨hown, fun hm => ceilStep_sync_mono resources st a _ (hsync hm)⟩

/-- C1: the ceiling analysis of `fn app` assigns every resource whose
accesses (as enumerated by `resource_accesses`: `init` at priority 255,
`idle` at priority 0, handlers, and tasks) all come from a single priority
`p` the ownership `Owned p`, and every resource accessed from at least two
distinct priorities the ownership `Shared c` with `c` the maximum priority
among all its accessors; moreover a read-only resource promoted to `Shared`
has its value type in the `needs_sync` set. -/
theorem C1_ceiling_analysis (a : App) (r : Nat) :
    (∀ p ps, accessPrios r a.resourceAccesses = p :: ps → (∀ q ∈ ps, q = p) →
        (app a).ownerships r = some (.Owned p)) ∧
    (∀ p ps, accessPrios r a.resourceAccesses = p :: ps → (∃ q ∈ ps, q ≠ p) →
        (app a).ownerships r = some (.Shared (listMax (p :: ps))) ∧
        ((a.resources r).mutability = false →
          (app a).needs_sync (a.resources r).ty = true)) :=
  ⟨(ceil_ownership_inv a.resources a.resourceAccesses r).2.1,
   (ceil_ownership_inv a.resources a.resourceAccesses r).2.2⟩

/-- Witness for C1: in `exApp1`, resource 0 (accessed only from priority 2)
is `Owned 2`; resource 1 (read-only, accessed from priorities 1 and 3) is
`Shared 3` and its value type 7 needs `Sync`. -/
theorem C1_ceiling_analysis_witness :
    (app exApp1).ownerships 0 = some (.Owned 2) ∧
    (app exApp1).ownerships 1 = some (.Shared 3) ∧
    (app exApp1).needs_sync 7 = true := by
  have h0 := (C1_ceiling_analysis exApp1 0).1 2 [2] (by decide) (by decide)
  have h1 := (C1_ceiling_analysis exApp1 1).2 1 [3] (by decide) (by decide)
  exact ⟨h0, h1.1, h1.2 (by decide)⟩

/-! ## C3: the free-queue / ready-queue ceiling analysis -/

theorem foldl_max_eq_max (l : List Nat) : ∀ acc, l.foldl max acc = max acc (listMax l) := by
  induction l with
  | nil => intro acc; simp [listMax]
  | cons x xs ih =>
      intro acc
      have h2 : listMax (x :: xs) = max x (listMax xs) := by
        show List.foldl max (max 0 x) xs = _
        rw [ih (max 0 x), Nat.zero_max]
      rw [List.foldl_cons, ih (max acc x), h2, Nat.max_assoc]

theorem listMax_cons (x : Nat) (l : List Nat) : listMax (x :: l) = max x (listMax l) := by
  show List.foldl max (max 0 x) l = _
  rw [foldl_max_eq_max, Nat.zero_max]

theorem listMax_append (l₁ l₂ : List Nat) :
    listMax (l₁ ++ l₂) = max (listMax l₁) (listMax l₂) := by
  show (l₁ ++ l₂).foldl max 0 = _
  rw [List.foldl_append, foldl_max_eq_max]
  rfl

theorem le_listMax (x : Nat) (l : List Nat) (h : x ∈ l) : x ≤ listMax l := by
  induction l with
  | nil => cases h
  | cons y ys ih =>
      rw [listMax_cons]
      rcases List.mem_cons.mp h with h' | h'
      · exact h' ▸ Nat.le_max_left y (listMax ys)
      · exact (ih h').trans (Nat.le_max_right y (listMax ys))

theorem mem_callPrios (p t : Nat) (l : List (Option Nat × Nat))
    (h : (some p, t) ∈ l) : p ∈ callPrios t l := by
  induction l with
  | nil => cases h
  | cons c cs ih =>
      obtain ⟨copt, ct⟩ := c
      rcases List.mem_cons.mp h with h' | h'
      · obtain ⟨h1, h2⟩ := Prod.mk.injEq .. ▸ h'
        cases h1; cases h2
        simp [callPrios]
      · cases copt with
        | none => simpa [callPrios] using ih h'
        | some q =>
            by_cases hct : ct = t <;> simp [callPrios, hct, ih h']

theorem mem_callPriosAtLevel (tp : Nat → Nat) (p t : Nat) (l : List (Option Nat × Nat))
    (h : (some p, t) ∈ l) : p ∈ callPriosAtLevel tp (tp t) l := by
  induction l with
  | nil => cases h
  | cons c cs ih =>
      obtain ⟨copt, ct⟩ := c
      rcases List.mem_cons.mp h with h' | h'
      · obtain ⟨h1, h2⟩ := Prod.mk.injEq .. ▸ h'
        cases h1; cases h2
        simp [callPriosAtLevel]
      · cases copt with
        | none => simpa [callPriosAtLevel] using ih h'
        | some q =>
            by_cases hct : tp ct = tp t <;> simp [callPriosAtLevel, hct, ih h']

theorem spawnFold_free (tp : Nat → Nat) (l : List (Option Nat × Nat)) :
    ∀ (st : QueueState) (t : Nat),
      (l.foldl (spawnStep tp) st).free_queues t
        = max (st.free_queues t) (listMax (callPrios t l)) := by
  induction l with
  | nil => intro st t; simp [callPrios, listMax]
  | cons c cs ih =>
      intro st t
      obtain ⟨copt, ct⟩ := c
      rw [List.foldl_cons, ih]
      cases copt with
      | none => simp [spawnStep, callPrios]
      | some p =>
          by_cases hct : ct = t
          · subst hct
            simp [spawnStep, callPrios, listMax_cons]
            omega
          · have hct' : ¬ct = t := hct
            have hct'' : ¬t = ct := fun he => hct he.symm
            simp [spawnStep, callPrios, hct', hct'']

theorem spawnFold_ready (tp : Nat → Nat) (l : List (Option Nat × Nat)) :
    ∀ (st : QueueState) (q : Nat),
      (l.foldl (spawnStep tp) st).ready_queues q
        = max (st.ready_queues q) (listMax (callPriosAtLevel tp q l)) := by
  induction l with
  | nil => intro st q; simp [callPriosAtLevel, listMax]
  | cons c cs ih =>
      intro st q
      obtain ⟨copt, ct⟩ := c
      rw [List.foldl_cons, ih]
      cases copt with
      | none => simp [spawnStep, callPriosAtLevel]
      | some p =>
          by_cases hct : tp ct = q
          · subst hct
            simp [spawnStep, callPriosAtLevel, listMax_cons]
            omega
          · have hct' : ¬q = tp ct := fun he => hct he.symm
            simp [spawnStep, callPriosAtLevel, hct, hct']

theorem spawnFold_send_mono (tp : Nat → Nat) (l : List (Option Nat × Nat)) :
    ∀ (st : QueueState) (t : Nat), st.needs_send t = true →
      (l.foldl (spawnStep tp) st).needs_send t = true := by
  induction l with
  | nil => intro st t h; exact h
  | cons c cs ih =>
      intro st t h
      obtain ⟨copt, ct⟩ := c
      rw [List.foldl_cons]
      refine ih _ t ?_
      cases copt with
      | none => exact h
      | some p =>
          simp only [spawnStep]
          split
          · by_cases hct : t = ct <;> simp [hct, h]
          · exact h

theorem spawnFold_send (tp : Nat → Nat) (l : List (Option Nat × Nat)) :
    ∀ (st : QueueState) (p t : Nat), (some p, t) ∈ l → tp t ≠ p →
      (l.foldl (spawnStep tp) st).needs_send t = true := by
  induction l with
  | nil => intro st p t h _; cases h
  | cons c cs ih =>
      intro st p t h hne
      obtain ⟨copt, ct⟩ := c
      rw [List.foldl_cons]
      rcases List.mem_cons.mp h with h' | h'
      · obtain ⟨h1, h2⟩ := Prod.mk.injEq .. ▸ h'
        cases h1; cases h2
        refine spawnFold_send_mono tp cs _ t ?_
        simp [spawnStep, hne]
      · exact ih _ p t h' hne

theorem scheduleFold_free (l : List (Option Nat × Nat)) :
    ∀ (st : QueueState) (t : Nat),
      (l.foldl scheduleStep st).free_queues t
        = max (st.free_queues t) (listMax (callPrios t l)) := by
  induction l with
  | nil => intro st t; simp [callPrios, listMax]
  | cons c cs ih =>
      intro st t
      obtain ⟨copt, ct⟩ := c
      rw [List.foldl_cons, ih]
      cases copt with
      | none => simp [scheduleStep, callPrios]
      | some p =>
          by_cases hct : ct = t
          · subst hct
            simp [scheduleStep, callPrios, listMax_cons]
            omega
          · have hct' : ¬ct = t := hct
            have hct'' : ¬t = ct := fun he => hct he.symm
            simp [scheduleStep, callPrios, hct', hct'']

theorem scheduleFold_ready_send (l : List (Option Nat × Nat)) :
    ∀ (st : QueueState),
      (l.foldl scheduleStep st).ready_queues = st.ready_queues ∧
      (l.foldl scheduleStep st).needs_send = st.needs_send := by
  induction l with
  | nil => intro st; exact ⟨rfl, rfl⟩
  | cons c cs ih =>
      intro st
      obtain ⟨copt, ct⟩ := c
      rw [List.foldl_cons]
      refine ⟨((ih _).1).trans ?_, ((ih _).2).trans ?_⟩ <;>
        cases copt <;> rfl

/-- C3: for every `spawn` call-site with priority `some p` targeting task
`t` of declared priority `q`, the analysis leaves `t`'s free-queue ceiling
at least `p`, the ready-queue ceiling at level `q` at least `p`, and puts
`t` into `needs_send` whenever `p ≠ q`; call-sites from `init` (priority
`none`) are excluded throughout.  Exactly: every free-queue ceiling equals
the maximum priority over the non-`init` `spawn` and `schedule` call-sites
targeting the task (`0` if there are none), and every ready-queue ceiling
equals the maximum priority over the non-`init` `spawn` call-sites whose
target has the given declared priority (`0` if there are none). -/
theorem C3_queue_ceilings (a : App) :
    (∀ p t, (some p, t) ∈ a.spawnCalls →
        p ≤ (app a).free_queues t ∧
        p ≤ (app a).ready_queues (a.taskPriority t) ∧
        (p ≠ a.taskPriority t → (app a).needs_send t = true)) ∧
    (∀ t, (app a).free_queues t
        = listMax (callPrios t a.spawnCalls ++ callPrios t a.scheduleCalls)) ∧
    (∀ q, (app a).ready_queues q
        = listMax (callPriosAtLevel a.taskPriority q a.spawnCalls)) := by
  have hfree : ∀ t, (app a).free_queues t
      = listMax (callPrios t a.spawnCalls ++ callPrios t a.scheduleCalls) := by
    intro t
    simp only [app]
    rw [scheduleFold_free, spawnFold_free, listMax_append]
    simp
  have hready : ∀ q, (app a).ready_queues q
      = listMax (callPriosAtLevel a.taskPriority q a.spawnCalls) := by
    intro q
    simp only [app]
    rw [(scheduleFold_ready_send a.scheduleCalls _).1, spawnFold_ready]
    simp
  have hsend : ∀ p t, (some p, t) ∈ a.spawnCalls → a.taskPriority t ≠ p →
      (app a).needs_send t = true := by
    intro p t hmem hne
    simp only [app]
    rw [(scheduleFold_ready_send a.scheduleCalls _).2]
    exact spawnFold_send a.taskPriority a.spawnCalls _ p t hmem hne
  refine ⟨fun p t hmem => ⟨?_, ?_, fun hne => hsend p t hmem (Ne.symm hne)⟩,
    hfree, hready⟩
  · rw [hfree]
    exact le_listMax p _ (List.mem_append_left _ (mem_callPrios p t a.spawnCalls hmem))
  · rw [hready]
    exact le_listMax p _ (mem_callPriosAtLevel a.taskPriority p t a.spawnCalls hmem)

/-- Witness for C3: in `exApp3`, the priority-2 `spawn` of task 0 (declared
priority 1) bounds both ceilings from below and forces `Send`; the exact
free-queue ceiling of task 0 is 5 (raised further by the priority-5
`schedule`), and the exact ready-queue ceiling at level 3 is 3. -/
theorem C3_queue_ceilings_witness :
    2 ≤ (app exApp3).free_queues 0 ∧
    2 ≤ (app exApp3).ready_queues 1 ∧
    (app exApp3).needs_send 0 = true ∧
    (app exApp3).free_queues 0 = 5 ∧
    (app exApp3).ready_queues 3 = 3 := by
  obtain ⟨h1, h2, h3⟩ := (C3_queue_ceilings exApp3).1 2 0 (by decide)
  exact ⟨h1, h2, h3 (by decide),
    ((C3_queue_ceilings exApp3).2.1 0).trans (by decide),
    ((C3_queue_ceilings exApp3).2.2 3).trans (by decide)⟩

end RTFM
